import Mathlib

/-!
Verification of the charmbase operator-framework core against its
natural-language specification.

The development shallowly embeds the parts of the repository the claims
touch.  Code that is present under `src/` (the PostgreSQL relation client
in `src/ops/lib/pgsql/client.py`) is translated directly from the source.
The framework core (`ops/framework.py`, `ops/storage.py`) is not part of
the source corpus — only its tests and callers are — so those components
are modelled from the specification text, as announced in the doc comment
of each such definition.

Conventions: Python `None`-able values become `Option`, Python exceptions
become `Except`, Python byte values become `Fin 256`, and machine-level
dictionaries keep their insertion order as association lists (Python dicts
are insertion ordered).
-/

set_option maxRecDepth 4000

namespace Charmbase

/-! ## PostgreSQL client: `src/ops/lib/pgsql/client.py`

Embedded from the source file.  The regular expression

  `(\w+) \s* = \s* (?: (\S*) ) (?=(?:\s|\Z))`

is compiled with `re.VERBOSE`; `findall` scans the subject left to right.
Because the three character classes involved (`\w`, `\s`, `=`) are
pairwise disjoint, backtracking into a greedy `\w+` or `\s*` run can never
produce a match that the maximal-munch run missed: after shortening a
`\w+` run the next character is still a word character, which is neither
whitespace nor `=`, and after shortening a `\s*` run the next character is
whitespace, not `=`.  Likewise the greedy `\S*` run ends exactly at the
next whitespace character or at the end of the subject, where the
lookahead `(?=(?:\s|\Z))` always holds.  The matcher below is therefore
the deterministic maximal-munch reading of the expression.  Character
classes are modelled at their ASCII meaning (libpq connection strings are
ASCII). -/

/-- `\w` at its ASCII meaning: letters, digits and underscore. -/
def isWordChar (c : Char) : Bool := c.isAlphanum || c = '_'

/-- `\s` at its ASCII meaning. -/
def isSpaceChar (c : Char) : Bool :=
  c = ' ' || c = '\t' || c = '\n' || c = '\r' || c = '\x0b' || c = '\x0c'

/-- One attempted match of `key_value_re` at the head of the subject:
a nonempty word-character run, optional whitespace, `=`, optional
whitespace, then a possibly empty maximal non-whitespace run as the
value.  Returns the captured pair and the remaining subject. -/
def matchKeyValue (cs : List Char) : Option ((String × String) × List Char) :=
  let w := cs.takeWhile isWordChar
  let r1 := cs.dropWhile isWordChar
  if w.isEmpty then none else
  let r2 := r1.dropWhile isSpaceChar
  match r2 with
  | '=' :: r3 =>
    let r4 := r3.dropWhile isSpaceChar
    let v := r4.takeWhile (fun c => !isSpaceChar c)
    let r5 := r4.dropWhile (fun c => !isSpaceChar c)
    some ((String.mk w, String.mk v), r5)
  | _ => none

theorem matchKeyValue_shrinks (cs : List Char) (kv : String × String) (rem : List Char)
    (h : matchKeyValue cs = some (kv, rem)) : rem.length < cs.length := by
  unfold matchKeyValue at h
  by_cases hw : (cs.takeWhile isWordChar).isEmpty
  · simp [hw] at h
  · simp only [hw, Bool.false_eq_true, if_false] at h
    have h1 : (cs.dropWhile isWordChar).length < cs.length := by
      rcases cs with _ | ⟨c, cs'⟩
      · simp at hw
      · by_cases hc : isWordChar c
        · simp only [List.dropWhile_cons, hc, if_true]
          exact Nat.lt_succ_of_le (List.dropWhile_sublist _).length_le
        · simp [List.takeWhile_cons, hc] at hw
    split at h
    next r3 heq =>
      have h2 : (r3.dropWhile isSpaceChar).dropWhile (fun c => !isSpaceChar c) = rem := by
        simpa using congrArg (Prod.snd) (Option.some.inj h)
      have h3 : rem.length ≤ r3.length := by
        rw [← h2]
        exact le_trans (List.dropWhile_sublist _).length_le (List.dropWhile_sublist _).length_le
      have h4 : r3.length < (cs.dropWhile isWordChar).length := by
        have h5 : ('=' :: r3).length ≤ (cs.dropWhile isWordChar).length := by
          rw [← heq]; exact (List.dropWhile_sublist _).length_le
        simpa using h5
      omega
    next => simp at h

/-- `key_value_re.findall(master)`: scan left to right; on a match, emit
the two captures and continue after the match, otherwise advance one
character. -/
def keyValueFindall : List Char → List (String × String)
  | [] => []
  | c :: rest =>
    match h : matchKeyValue (c :: rest) with
    | some (kv, rem) =>
      have : rem.length < rest.length + 1 := by
        simpa using matchKeyValue_shrinks _ _ _ h
      kv :: keyValueFindall rem
    | none => keyValueFindall rest
termination_by cs => cs.length

/-- A Python dict as an insertion-ordered association list. -/
def dictFind (ps : List (String × String)) (k : String) : Option String :=
  (ps.find? (fun p => p.1 == k)).map Prod.snd

/-- The loop body of `PostgreSQLDatabase.__init__`: `if key not in
self.properties: self.properties[key] = val`. -/
def insertIfAbsent (ps : List (String × String)) (kv : String × String) :
    List (String × String) :=
  if (dictFind ps kv.1).isSome then ps else ps ++ [kv]

structure PostgreSQLDatabase where
  master : String
  properties : List (String × String)
deriving Repr, DecidableEq

/-- `PostgreSQLDatabase.__init__`: parse the pgsql
`key=value key2=value` connection string, keeping the first occurrence of
every key. -/
def PostgreSQLDatabase.ofConnString (master : String) : PostgreSQLDatabase :=
  { master := master
    properties := (keyValueFindall master.data).foldl insertIfAbsent [] }

/-- A Python `dict.__getitem__`: the value, or a `KeyError` naming the
key. -/
def dictGetItem (ps : List (String × String)) (k : String) : Except String String :=
  match dictFind ps k with
  | some v => .ok v
  | none => .error ("KeyError: " ++ k)

def PostgreSQLDatabase.host (d : PostgreSQLDatabase) : Except String String :=
  dictGetItem d.properties "host"

def PostgreSQLDatabase.database (d : PostgreSQLDatabase) : Except String String :=
  dictGetItem d.properties "dbname"

def PostgreSQLDatabase.port (d : PostgreSQLDatabase) : Except String String :=
  dictGetItem d.properties "port"

def PostgreSQLDatabase.user (d : PostgreSQLDatabase) : Except String String :=
  dictGetItem d.properties "user"

def PostgreSQLDatabase.password (d : PostgreSQLDatabase) : Except String String :=
  dictGetItem d.properties "password"

/-- The two status constructors `PostgreSQLError.__init__` is called
with in this module (`BlockedStatus`, `WaitingStatus` from
`ops.model`). -/
inductive StatusKind where
  | blocked
  | waiting
deriving Repr, DecidableEq

/-- A unit status: the constructor kind applied to its message. -/
structure Status where
  kind : StatusKind
  message : String
deriving Repr, DecidableEq

/-- `PostgreSQLError.__init__(self, kind, message, relation_name)`:
stores `kind('{}: {}'.format(message, relation_name))` as `self.status`. -/
structure PostgreSQLError where
  status : Status
deriving Repr, DecidableEq

def PostgreSQLError.make (kind : StatusKind) (message relationName : String) :
    PostgreSQLError :=
  { status := { kind := kind, message := message ++ ": " ++ relationName } }

/-- `PostgreSQLClient.master(self)`, embedded over its two inputs: the
number of relations on the endpoint (`len(self.framework.model.relations[self.name])`)
and the stored master connection string (`self.state.master`).  A Python
function body that raises maps to `.error`; falling off the end of the
body without hitting a `return` or `raise` yields Python `None`, modelled
as `.ok none`. -/
def PostgreSQLClient.master (name : String) (relationsCount : Nat)
    (stateMaster : Option String) :
    Except PostgreSQLError (Option PostgreSQLDatabase) :=
  if relationsCount = 1 then
    match stateMaster with
    | none => .error (PostgreSQLError.make .waiting "master not ready yet" name)
    | some m => .ok (some (PostgreSQLDatabase.ofConnString m))
  else if relationsCount = 0 then
    .error (PostgreSQLError.make .blocked "missing relation" name)
  else if relationsCount > 1 then
    .error (PostgreSQLError.make .blocked "too many related applications" name)
  else
    .ok none

/-- A Python runtime error escaping a handler. -/
inductive PyError where
  | unboundLocal (varName : String)
deriving Repr, DecidableEq

/-- `PostgreSQLClient.on_relation_changed(self, event)`, embedded over
the stored master (`self.state.master`) and the value of
`relation.data[event.unit].get('master')`.  The local variable
`should_emit` is modelled as an `Option Bool`: it is only assigned inside
the `if master is not None` branch, and reading it while unassigned
raises `UnboundLocalError`.  The result carries the updated
`self.state.master` and the payloads passed to
`self.on.master_changed.emit` (when `should_emit` holds, `master` is
necessarily `some m` and the emitted payload is `m`, which is
`master.toList`). -/
def PostgreSQLClient.on_relation_changed (stateMaster : Option String)
    (dataMaster : Option String) :
    Except PyError (Option String × List String) :=
  let master := dataMaster
  let should_emit : Option Bool :=
    match master with
    | some m => some (decide (¬ stateMaster = some m))
    | none => none
  match should_emit with
  | none => .error (.unboundLocal "should_emit")
  | some b =>
    if b then .ok (master, master.toList)
    else .ok (stateMaster, [])

/-! ## Storage serializer

The storage backends and their codec live in `ops/storage.py`, which is
not part of the source corpus (only its tests are), so this component is
modelled from the specification: the codec "encodes exactly the primitive
shapes produced by `snapshot()` — scalars, byte strings, ordered
sequences, unordered sets, and key-unique mappings with insertion order
preserved", and decoding "must reconstruct the identical shape".  The
target of the encoder is a YAML document tree as the external YAML
library presents it: scalar nodes, sequence nodes, mapping nodes, and
tagged nodes.  `src/test/test_storage.py` pins the document shapes: a set
becomes a `tag:yaml.org,2002:set`-tagged mapping whose values are null
(`four: !!set ...`), and a byte string becomes a
`tag:yaml.org,2002:binary`-tagged scalar holding the base64 text of the
bytes (`seven: !!binary | MTIzNA==`). -/

/-- The base64 alphabet, position `n` holding the character for the
6-bit value `n`. -/
def b64Alphabet : List Char :=
  "ABCDEFGHIJKLMNOPQRSTUVWXYZabcdefghijklmnopqrstuvwxyz0123456789+/".data

def b64Char (n : Fin 64) : Char := b64Alphabet.getD n.val 'A'

def b64Index (c : Char) : Option (Fin 64) :=
  (List.finRange 64).find? (fun i => b64Char i == c)

/-- Base64 of a byte string, three bytes to four characters, the final
group padded with `=`. -/
def b64EncodeChunks : List (Fin 256) → List Char
  | [] => []
  | [b1] =>
    [b64Char ⟨b1.val / 4, by have := b1.isLt; omega⟩,
     b64Char ⟨b1.val % 4 * 16, by have := b1.isLt; omega⟩, '=', '=']
  | [b1, b2] =>
    [b64Char ⟨b1.val / 4, by have := b1.isLt; omega⟩,
     b64Char ⟨b1.val % 4 * 16 + b2.val / 16, by have := b1.isLt; have := b2.isLt; omega⟩,
     b64Char ⟨b2.val % 16 * 4, by have := b2.isLt; omega⟩, '=']
  | b1 :: b2 :: b3 :: rest =>
    [b64Char ⟨b1.val / 4, by have := b1.isLt; omega⟩,
     b64Char ⟨b1.val % 4 * 16 + b2.val / 16, by have := b1.isLt; have := b2.isLt; omega⟩,
     b64Char ⟨b2.val % 16 * 4 + b3.val / 64, by have := b2.isLt; have := b3.isLt; omega⟩,
     b64Char ⟨b3.val % 64, by have := b3.isLt; omega⟩] ++ b64EncodeChunks rest

/-- Inverse of `b64EncodeChunks`: four characters back to three bytes,
honouring `=` padding in the final group. -/
def b64DecodeChunks : List Char → Option (List (Fin 256))
  | [] => some []
  | c1 :: c2 :: c3 :: c4 :: rest =>
    match b64Index c1, b64Index c2 with
    | some i1, some i2 =>
      if c3 = '=' then
        if c4 = '=' then
          if rest = [] then
            some [⟨i1.val * 4 + i2.val / 16, by have := i1.isLt; have := i2.isLt; omega⟩]
          else none
        else none
      else
        match b64Index c3 with
        | some i3 =>
          if c4 = '=' then
            if rest = [] then
              some [⟨i1.val * 4 + i2.val / 16, by have := i1.isLt; have := i2.isLt; omega⟩,
                    ⟨i2.val % 16 * 16 + i3.val / 4, by have := i2.isLt; have := i3.isLt; omega⟩]
            else none
          else
            match b64Index c4, b64DecodeChunks rest with
            | some i4, some tl =>
              some (⟨i1.val * 4 + i2.val / 16, by have := i1.isLt; have := i2.isLt; omega⟩ ::
                    ⟨i2.val % 16 * 16 + i3.val / 4, by have := i2.isLt; have := i3.isLt; omega⟩ ::
                    ⟨i3.val % 4 * 64 + i4.val, by have := i3.isLt; have := i4.isLt; omega⟩ :: tl)
            | _, _ => none
        | none => none
    | _, _ => none
  | _ => none

/-- A YAML scalar payload: null, booleans, integers, floats (kept at
full precision, as the codec only carries them through), and text
strings. -/
inductive PScalar where
  | pnull
  | pbool (b : Bool)
  | pint (n : Int)
  | pfloat (q : Rat)
  | pstr (s : String)
deriving Repr, DecidableEq

/-- Modelled from the spec: the value shapes the serializer supports —
"scalars, byte strings, ordered sequences, unordered sets, and
key-unique mappings with insertion order preserved".  A Python byte
value is a `Fin 256`; sets and mappings carry their iteration order. -/
inductive Value where
  | scalar (s : PScalar)
  | bytes (bs : List (Fin 256))
  | seq (items : List Value)
  | setv (items : List Value)
  | dict (entries : List (PScalar × Value))

def binaryTag : String := "tag:yaml.org,2002:binary"

def setTag : String := "tag:yaml.org,2002:set"

/-- A YAML document tree as the external YAML library presents it:
scalar, sequence and mapping nodes, plus tagged nodes (`!!set`,
`!!binary`). -/
inductive Doc where
  | scalar (s : PScalar)
  | seq (items : List Doc)
  | mapd (entries : List (Doc × Doc))
  | tagged (tag : String) (d : Doc)

mutual

/-- Modelled from the spec: the encoder of the storage codec
(`ops/storage.py` is absent from the corpus).  Scalars stay scalar
nodes; byte strings become binary-tagged base64 scalars; sequences
become sequence nodes; sets become set-tagged mappings to null; mappings
become mapping nodes with scalar keys — the document shapes pinned by
`test_storage.py`. -/
def encode : Value → Doc
  | .scalar s => .scalar s
  | .bytes bs => .tagged binaryTag (.scalar (.pstr (String.mk (b64EncodeChunks bs))))
  | .seq items => .seq (encodeList items)
  | .setv items => .tagged setTag (.mapd (encodeSetEntries items))
  | .dict entries => .mapd (encodeDict entries)

def encodeList : List Value → List Doc
  | [] => []
  | v :: rest => encode v :: encodeList rest

def encodeSetEntries : List Value → List (Doc × Doc)
  | [] => []
  | v :: rest => (encode v, .scalar .pnull) :: encodeSetEntries rest

def encodeDict : List (PScalar × Value) → List (Doc × Doc)
  | [] => []
  | (k, v) :: rest => (.scalar k, encode v) :: encodeDict rest
end

mutual

/-- Modelled from the spec: the decoder — "decoding must reconstruct the
identical shape: a set decodes back to a set, a byte string is
distinguishable from a text string, nested structures round-trip
exactly".  Fails (`none`) on any document outside the image of the
codec: an unknown tag, a set entry whose value is not null, a mapping
key that is not a scalar, or malformed base64. -/
def decode : Doc → Option Value
  | .scalar s => some (.scalar s)
  | .tagged tag d =>
    if tag = binaryTag then
      match d with
      | .scalar (.pstr s) => (b64DecodeChunks s.data).map Value.bytes
      | _ => none
    else if tag = setTag then
      match d with
      | .mapd entries => (decodeSetEntries entries).map Value.setv
      | _ => none
    else none
  | .seq items => (decodeList items).map Value.seq
  | .mapd entries => (decodeDict entries).map Value.dict

def decodeList : List Doc → Option (List Value)
  | [] => some []
  | d :: rest =>
    match decode d, decodeList rest with
    | some v, some tl => some (v :: tl)
    | _, _ => none

def decodeSetEntries : List (Doc × Doc) → Option (List Value)
  | [] => some []
  | (k, .scalar .pnull) :: rest =>
    match decode k, decodeSetEntries rest with
    | some v, some tl => some (v :: tl)
    | _, _ => none
  | _ => none

def decodeDict : List (Doc × Doc) → Option (List (PScalar × Value))
  | [] => some []
  | (.scalar k, vd) :: rest =>
    match decode vd, decodeDict rest with
    | some v, some tl => some ((k, v) :: tl)
    | _, _ => none
  | _ => none
end

/-- Modelled from the spec: `Framework.save_snapshot` — serialize the
object state and store it under the object handle path. -/
def save_snapshot (store : List (String × Doc)) (handlePath : String) (data : Value) :
    List (String × Doc) :=
  (handlePath, encode data) :: store

/-- Modelled from the spec: `Framework.load_snapshot` — read the encoded
document stored under the handle path and decode it back to the state
mapping. -/
def load_snapshot (store : List (String × Doc)) (handlePath : String) : Option Value :=
  ((store.find? (fun p => p.1 == handlePath)).map Prod.snd).bind decode

/-! ## Rejection of unsupported shapes

Modelled from the spec: the serializer "must reject (fail, not silently
coerce) any value of a shape outside this set, naming the offending key
and observed type".  `PyValue` widens `Value` with `obj`, standing for
any Python value of a shape outside the supported set and carrying the
name of its observed type. -/

inductive PyValue where
  | scalar (s : PScalar)
  | bytes (bs : List (Fin 256))
  | seq (items : List PyValue)
  | setv (items : List PyValue)
  | dict (entries : List (PScalar × PyValue))
  | obj (typeName : String)

/-- A serialization failure names the offending storage key and the
observed type of the rejected value. -/
structure SerializationError where
  key : String
  typeName : String
deriving Repr, DecidableEq

mutual

/-- Modelled from the spec: the checked encoder, encoding the value
stored under `key` and rejecting any value of an unsupported shape with
a `SerializationError` naming `key` and the observed type. -/
def encodeChecked (key : String) : PyValue → Except SerializationError Doc
  | .scalar s => .ok (.scalar s)
  | .bytes bs => .ok (.tagged binaryTag (.scalar (.pstr (String.mk (b64EncodeChunks bs)))))
  | .seq items =>
    match encodeCheckedList key items with
    | .ok ds => .ok (.seq ds)
    | .error e => .error e
  | .setv items =>
    match encodeCheckedSet key items with
    | .ok es => .ok (.tagged setTag (.mapd es))
    | .error e => .error e
  | .dict entries =>
    match encodeCheckedDict key entries with
    | .ok es => .ok (.mapd es)
    | .error e => .error e
  | .obj t => .error { key := key, typeName := t }

def encodeCheckedList (key : String) : List PyValue → Except SerializationError (List Doc)
  | [] => .ok []
  | v :: rest =>
    match encodeChecked key v with
    | .error e => .error e
    | .ok d =>
      match encodeCheckedList key rest with
      | .error e => .error e
      | .ok ds => .ok (d :: ds)

def encodeCheckedSet (key : String) : List PyValue → Except SerializationError (List (Doc × Doc))
  | [] => .ok []
  | v :: rest =>
    match encodeChecked key v with
    | .error e => .error e
    | .ok d =>
      match encodeCheckedSet key rest with
      | .error e => .error e
      | .ok es => .ok ((d, .scalar .pnull) :: es)

def encodeCheckedDict (key : String) :
    List (PScalar × PyValue) → Except SerializationError (List (Doc × Doc))
  | [] => .ok []
  | (k, v) :: rest =>
    match encodeChecked key v with
    | .error e => .error e
    | .ok d =>
      match encodeCheckedDict key rest with
      | .error e => .error e
      | .ok es => .ok ((.scalar k, d) :: es)
end

mutual

/-- The observed type of the first value of unsupported shape inside a
`PyValue` (depth first, in order), or `none` when every part of the
value has a supported shape. -/
def findUnsupported : PyValue → Option String
  | .scalar _ => none
  | .bytes _ => none
  | .seq items => findUnsupportedList items
  | .setv items => findUnsupportedList items
  | .dict entries => findUnsupportedDict entries
  | .obj t => some t

def findUnsupportedList : List PyValue → Option String
  | [] => none
  | v :: rest =>
    match findUnsupported v with
    | some t => some t
    | none => findUnsupportedList rest

def findUnsupportedDict : List (PScalar × PyValue) → Option String
  | [] => none
  | (_, v) :: rest =>
    match findUnsupported v with
    | some t => some t
    | none => findUnsupportedDict rest
end

/-! ## Host-hook-tool storage backend protocol

Modelled from the spec (§6) and pinned by
`test_storage.py::TestJujuStateBackend`: reads run `state-get <key>`,
writes run `state-set --file -` piping the document on standard input as
the quoted key, a colon, and a block-indented encoded document, deletes
run `state-delete <key>`.  The text layer of the encoded document is a
flow-style rendering of the document tree; the byte-exact YAML quoting
rules belong to the external YAML library and are out of scope. -/

/-- One invocation of a hook tool: its argument vector and the document
piped on standard input, when any. -/
structure CommandInvocation where
  argv : List String
  stdinDoc : Option String
deriving Repr, DecidableEq

def renderScalar : PScalar → String
  | .pnull => "null"
  | .pbool true => "true"
  | .pbool false => "false"
  | .pint n => toString n
  | .pfloat q => toString q
  | .pstr s => s

mutual

/-- A flow-style one-line rendering of a document tree, as the inner
`yaml.dump` of the value produces (`\x7bfoo: 2\x7d`-style). -/
def renderDoc : Doc → String
  | .scalar s => renderScalar s
  | .seq items => "[" ++ renderDocList items ++ "]"
  | .mapd entries => "\x7b" ++ renderDocMap entries ++ "\x7d"
  | .tagged tag d => "!<" ++ tag ++ "> " ++ renderDoc d

def renderDocList : List Doc → String
  | [] => ""
  | [d] => renderDoc d
  | d :: rest => renderDoc d ++ ", " ++ renderDocList rest

def renderDocMap : List (Doc × Doc) → String
  | [] => ""
  | [(k, v)] => renderDoc k ++ ": " ++ renderDoc v
  | (k, v) :: rest => renderDoc k ++ ": " ++ renderDoc v ++ ", " ++ renderDocMap rest
end

/-- Modelled from the spec: `_JujuStorageBackend.get` — invoke the
"get" hook tool with the single key as argument; the reply document (or
nothing, when the key is absent) decodes to the result. -/
def stateGet (key : String) (toolReply : Option Doc) : CommandInvocation × Option Value :=
  ({ argv := ["state-get", key], stdinDoc := none }, toolReply.bind decode)

/-- The lines of the document piped to the "set" hook tool: the quoted
key and a colon on the first line, then every line of the encoded
document indented by two spaces (a YAML block scalar). -/
def stateSetLines (key : String) (value : Value) : List String :=
  ("\"" ++ key ++ "\": |") :: ((renderDoc (encode value)).splitOn "\n").map (fun l => "  " ++ l)

/-- Modelled from the spec: `_JujuStorageBackend.set` — invoke the
"set" hook tool with a file-input flag and pipe the full document on
standard input. -/
def stateSet (key : String) (value : Value) : CommandInvocation :=
  { argv := ["state-set", "--file", "-"]
    stdinDoc := some (String.intercalate "\n" (stateSetLines key value) ++ "\n") }

/-- Modelled from the spec: `_JujuStorageBackend.delete` — invoke the
"delete" hook tool with the single key as argument. -/
def stateDelete (key : String) : CommandInvocation :=
  { argv := ["state-delete", key], stdinDoc := none }

/-! ## StoredState slots

Modelled from the spec: a `StoredState` slot is
`(owner-path, field-name) -> primitive-mapping`, and "`set_default`
only writes if the slot is entirely absent; it never overwrites an
existing value". -/

/-- The persisted slot store, insertion ordered. -/
abbrev SlotStore := List ((String × String) × Value)

def slotFind (st : SlotStore) (owner field : String) : Option Value :=
  (List.find? (fun e => e.1.1 == owner && e.1.2 == field) st).map Prod.snd

/-- Modelled from the spec: `StoredState.set_default(**fields)` for the
owner object at `owner` — write each field's initial value only if no
snapshot yet exists for `(owner, field)`. -/
def set_default (st : SlotStore) (owner : String) (fields : List (String × Value)) :
    SlotStore :=
  fields.foldl
    (fun acc fv =>
      if (slotFind acc owner fv.1).isSome then acc else acc ++ [((owner, fv.1), fv.2)])
    st

/-! ## Handles and the collision check

Modelled from the spec: a Handle is `(parent, kind, key)` resolving to a
path string by concatenating ancestor kinds/keys (the persisted key
`Class[foo]/_stored` in `test_storage.py` pins the `kind[key]` segment
form joined by `/`), and "constructing two Objects with the same
parent+kind+key in one run raises a Collision error — the system does
not silently alias them". -/

def handlePath (parent : Option String) (kind : String) (key : Option String) : String :=
  (match parent with
   | some p => p ++ "/"
   | none => "") ++ kind ++
  (match key with
   | some k => "[" ++ k ++ "]"
   | none => "")

inductive CollisionError where
  | collision (path : String)
deriving Repr, DecidableEq

/-- The per-run object registry of a Framework: the handle paths of the
objects constructed so far in this run. -/
structure ObjectRegistry where
  objects : List String
deriving Repr, DecidableEq

/-- Modelled from the spec: registering a newly constructed Object with
the framework — raise `CollisionError` if an object with the same
parent+kind+key handle path was already constructed in this run,
otherwise record the new path. -/
def registerObject (f : ObjectRegistry) (parent : Option String) (kind : String)
    (key : Option String) : Except CollisionError ObjectRegistry :=
  let path := handlePath parent kind key
  if f.objects.contains path then .error (.collision path)
  else .ok { objects := f.objects ++ [path] }

/-! ## The notice queue: emit and reemit

Modelled from the spec (§4.2): `emit` allocates a sequence number,
serializes the event, durably writes one Notice per bound observer
before invoking that observer, then deletes the Notice when the
observer returns, keeps it on deferral, and stops at the first
propagated error; `reemit` loads every pending Notice in ascending
sequence order and redelivers each to exactly its recorded observer
before any new emission.  An observer's behaviour is abstracted as the
three-way `Outcome`. -/

/-- The three outcomes of one observer invocation. -/
inductive Outcome where
  | handled
  | deferred
  | failed
deriving Repr, DecidableEq

/-- A durable Notice: one pending (event occurrence × observer)
delivery. -/
structure Notice where
  seq : Nat
  eventKind : String
  snapshot : Value
  observerPath : String

/-- One storage or dispatch step, for stating ordering properties. -/
inductive Op where
  | saveNotice (seq : Nat) (observer : String)
  | invoke (seq : Nat) (observer : String) (snapshot : Value)
  | dropNotice (seq : Nat) (observer : String)

/-- The sequence number an operation concerns. -/
def opSeqOf : Op → Nat
  | .saveNotice s _ => s
  | .invoke s _ _ => s
  | .dropNotice s _ => s

def Op.isInvoke : Op → Bool
  | .invoke _ _ _ => true
  | _ => false

/-- Delete the Notice keyed by `(seq, observer)` from storage. -/
def removeNotice (st : List Notice) (seq : Nat) (observer : String) : List Notice :=
  st.filter (fun n => !(n.seq == seq && n.observerPath == observer))

/-- Modelled from the spec: the observer loop of `Framework.emit` for
one event with kind `ek` and snapshot `snap`.  For each bound observer
in registration order: allocate the next sequence number, durably write
the Notice, invoke the observer; delete the Notice when it handled the
event, keep it untouched when it deferred, and stop immediately —
creating no further Notices — when it failed.  Returns the operation
trace, the final storage, the next sequence number and the propagated
error, if any. -/
def emitAux (ek : String) (snap : Value) :
    List Notice → Nat → List (String × Outcome) →
    List Op × List Notice × Nat × Option String
  | storage, seq, [] => ([], storage, seq, none)
  | storage, seq, (obs, outcome) :: rest =>
    let n : Notice := { seq := seq, eventKind := ek, snapshot := snap, observerPath := obs }
    let saved := storage ++ [n]
    match outcome with
    | .handled =>
      let r := emitAux ek snap (removeNotice saved seq obs) (seq + 1) rest
      (Op.saveNotice seq obs :: Op.invoke seq obs snap :: Op.dropNotice seq obs :: r.1,
       r.2)
    | .deferred =>
      let r := emitAux ek snap saved (seq + 1) rest
      (Op.saveNotice seq obs :: Op.invoke seq obs snap :: r.1, r.2)
    | .failed =>
      ([Op.saveNotice seq obs, Op.invoke seq obs snap], saved, seq + 1, some obs)

/-- The operation trace `emitAux` produces, described directly over the
observer list. -/
def expectedTrace (ek : String) (snap : Value) (seq : Nat) :
    List (String × Outcome) → List Op
  | [] => []
  | (obs, .handled) :: rest =>
    Op.saveNotice seq obs :: Op.invoke seq obs snap :: Op.dropNotice seq obs ::
      expectedTrace ek snap (seq + 1) rest
  | (obs, .deferred) :: rest =>
    Op.saveNotice seq obs :: Op.invoke seq obs snap :: expectedTrace ek snap (seq + 1) rest
  | (obs, .failed) :: _ => [Op.saveNotice seq obs, Op.invoke seq obs snap]

/-- The Notices an emission leaves behind: one per deferred observer
before the first failure, plus the failing observer's own Notice. -/
def expectedNew (ek : String) (snap : Value) (seq : Nat) :
    List (String × Outcome) → List Notice
  | [] => []
  | (_, .handled) :: rest => expectedNew ek snap (seq + 1) rest
  | (obs, .deferred) :: rest =>
    { seq := seq, eventKind := ek, snapshot := snap, observerPath := obs } ::
      expectedNew ek snap (seq + 1) rest
  | (obs, .failed) :: _ =>
    [{ seq := seq, eventKind := ek, snapshot := snap, observerPath := obs }]

/-- How many observers an emission attempts: everything up to and
including the first failing observer. -/
def attemptedCount : List (String × Outcome) → Nat
  | [] => 0
  | (_, .failed) :: _ => 1
  | _ :: rest => attemptedCount rest + 1

/-- The first failing observer, if any. -/
def firstFailure : List (String × Outcome) → Option String
  | [] => none
  | (obs, .failed) :: _ => some obs
  | _ :: rest => firstFailure rest

/-- Modelled from the spec: the redelivery loop of `Framework.reemit`
over the pending Notices loaded at the start of a run.  Each Notice is
redelivered to exactly its recorded observer with its stored snapshot;
a handled Notice is dropped, a deferred one kept, and a failure aborts
the loop leaving that Notice and all later ones untouched.  The
observer behaviour `beh` maps `(seq, observerPath)` to the outcome of
that redelivery. -/
def reemitAux (beh : Nat → String → Outcome) : List Notice → List Op × List Notice × Option String
  | [] => ([], [], none)
  | n :: rest =>
    match beh n.seq n.observerPath with
    | .handled =>
      let r := reemitAux beh rest
      (Op.invoke n.seq n.observerPath n.snapshot :: Op.dropNotice n.seq n.observerPath :: r.1,
       r.2)
    | .deferred =>
      let r := reemitAux beh rest
      (Op.invoke n.seq n.observerPath n.snapshot :: r.1, n :: r.2.1, r.2.2)
    | .failed =>
      ([Op.invoke n.seq n.observerPath n.snapshot], n :: rest, some n.observerPath)

/-- Modelled from the spec: loading the pending Notices at the start of
a run, in ascending sequence order. -/
def loadNotices (storage : List Notice) : List Notice :=
  storage.mergeSort (fun a b => a.seq ≤ b.seq)

/-- Modelled from the spec: one run — reemit all pending Notices first;
when reemission completes without a propagated error, emit the run's
one new event to its bound observers.  A failure during reemission
aborts the run: the new event is never emitted and its trace is empty. -/
def runModel (storage : List Notice) (beh : Nat → String → Outcome) (ek : String)
    (snap : Value) (newObservers : List (String × Outcome)) (nextSeq : Nat) :
    (List Op × List Op) × List Notice × Option String :=
  let pending := loadNotices storage
  let r := reemitAux beh pending
  match r.2.2 with
  | some e => ((r.1, []), r.2.1, some e)
  | none =>
    let em := emitAux ek snap r.2.1 nextSeq newObservers
    ((r.1, em.1), em.2.1, em.2.2.2)

/-! # Theorems -/

/-! ## Codec round trip -/

theorem b64Index_b64Char : ∀ n : Fin 64, b64Index (b64Char n) = some n := by decide

theorem b64Char_ne_pad : ∀ n : Fin 64, ¬ b64Char n = '=' := by decide

theorem b64_roundtrip : ∀ bs : List (Fin 256), b64DecodeChunks (b64EncodeChunks bs) = some bs
  | [] => rfl
  | [b1] => by
    have h1 := b1.isLt
    simp only [b64EncodeChunks, b64DecodeChunks, b64Index_b64Char]
    simp only [reduceIte, Option.some.injEq, List.cons.injEq, and_true]
    apply Fin.ext
    show b1.val / 4 * 4 + b1.val % 4 * 16 / 16 = b1.val
    omega
  | [b1, b2] => by
    have h1 := b1.isLt; have h2 := b2.isLt
    simp only [b64EncodeChunks, b64DecodeChunks, b64Index_b64Char]
    rw [if_neg (b64Char_ne_pad _)]
    simp only [b64Index_b64Char, reduceIte, Option.some.injEq, List.cons.injEq, and_true]
    constructor
    · apply Fin.ext
      show b1.val / 4 * 4 + (b1.val % 4 * 16 + b2.val / 16) / 16 = b1.val
      omega
    · apply Fin.ext
      show (b1.val % 4 * 16 + b2.val / 16) % 16 * 16 + b2.val % 16 * 4 / 4 = b2.val
      omega
  | b1 :: b2 :: b3 :: rest => by
    have h1 := b1.isLt; have h2 := b2.isLt; have h3 := b3.isLt
    have ih := b64_roundtrip rest
    simp only [b64EncodeChunks, List.cons_append, List.nil_append, b64DecodeChunks,
      b64Index_b64Char]
    rw [if_neg (b64Char_ne_pad _), if_neg (b64Char_ne_pad _)]
    simp only [List.append_eq, List.nil_append, b64Index_b64Char, ih, Option.some.injEq,
      List.cons.injEq]
    refine ⟨?_, ?_, ?_, trivial⟩
    · apply Fin.ext
      show b1.val / 4 * 4 + (b1.val % 4 * 16 + b2.val / 16) / 16 = b1.val
      omega
    · apply Fin.ext
      show (b1.val % 4 * 16 + b2.val / 16) % 16 * 16 + (b2.val % 16 * 4 + b3.val / 64) / 4 = b2.val
      omega
    · apply Fin.ext
      show (b2.val % 16 * 4 + b3.val / 64) % 4 * 64 + b3.val % 64 = b3.val
      omega

mutual

theorem decode_encode : ∀ v : Value, decode (encode v) = some v
  | .scalar s => rfl
  | .bytes bs => by
    show decode (.tagged binaryTag (.scalar (.pstr (String.mk (b64EncodeChunks bs))))) = _
    simp only [decode, reduceIte, b64_roundtrip bs]
    rfl
  | .seq items => by
    show decode (.seq (encodeList items)) = _
    simp only [decode, decode_encode_list items]
    rfl
  | .setv items => by
    show decode (.tagged setTag (.mapd (encodeSetEntries items))) = _
    have hne : ¬ setTag = binaryTag := by decide
    simp only [decode, hne, reduceIte, decode_encode_setentries items]
    rfl
  | .dict entries => by
    show decode (.mapd (encodeDict entries)) = _
    simp only [decode, decode_encode_dict entries]
    rfl

theorem decode_encode_list : ∀ l : List Value, decodeList (encodeList l) = some l
  | [] => rfl
  | v :: vs => by
    show decodeList (encode v :: encodeList vs) = _
    simp only [decodeList, decode_encode v, decode_encode_list vs]

theorem decode_encode_setentries : ∀ l : List Value,
    decodeSetEntries (encodeSetEntries l) = some l
  | [] => rfl
  | v :: vs => by
    show decodeSetEntries ((encode v, .scalar .pnull) :: encodeSetEntries vs) = _
    simp only [decodeSetEntries, decode_encode v, decode_encode_setentries vs]

theorem decode_encode_dict : ∀ l : List (PScalar × Value),
    decodeDict (encodeDict l) = some l
  | [] => rfl
  | (k, v) :: rest => by
    show decodeDict ((.scalar k, encode v) :: encodeDict rest) = _
    simp only [decodeDict, decode_encode v, decode_encode_dict rest]
end

/-- Claim C1: for every value built only from the supported primitive
shapes — scalars, byte strings, ordered sequences, unordered sets,
key-unique mappings — the storage codec satisfies
`decode (encode x) = x` (so sets decode back to sets, byte strings stay
distinguishable from text strings, and nested structures round-trip
exactly), and restoring an Object/Event state from its saved snapshot
yields state equal to the original. -/
theorem c1_codec_roundtrip_and_snapshot_restore (v : Value)
    (store : List (String × Doc)) (path : String) :
    decode (encode v) = some v ∧
    load_snapshot (save_snapshot store path v) path = some v := by
  refine ⟨decode_encode v, ?_⟩
  simp [load_snapshot, save_snapshot, List.find?_cons, decode_encode v]

/-! ## PostgreSQL client -/

/-- Claim C8: `on_relation_changed` reads the local `should_emit`
before it is ever assigned whenever the unit relation data carries no
`master` key, so it raises an error instead of returning normally; the
handler completes exactly when `master` is present. -/
theorem c8_relation_changed_unbound_local (stateMaster dataMaster : Option String) :
    PostgreSQLClient.on_relation_changed stateMaster none =
      .error (.unboundLocal "should_emit") ∧
    (PostgreSQLClient.on_relation_changed stateMaster dataMaster).isOk = dataMaster.isSome := by
  refine ⟨rfl, ?_⟩
  cases dataMaster with
  | none => rfl
  | some m =>
    simp only [PostgreSQLClient.on_relation_changed, Option.isSome_some]
    split <;> rfl

/-- Claim C9: `PostgreSQLClient.master` raises a Blocked
`PostgreSQLError` when zero relations exist, a Waiting one when exactly
one relation exists but no master connection string is stored, a
Blocked one when more than one relation exists, returns the parsed
database otherwise, and never returns `None` on any path. -/
theorem c9_master_status (name : String) (n : Nat) (sm : Option String) :
    PostgreSQLClient.master name n sm =
      (match n, sm with
       | 0, _ => .error (PostgreSQLError.make .blocked "missing relation" name)
       | 1, none => .error (PostgreSQLError.make .waiting "master not ready yet" name)
       | 1, some m => .ok (some (PostgreSQLDatabase.ofConnString m))
       | _ + 2, _ => .error (PostgreSQLError.make .blocked "too many related applications" name)) ∧
    ¬ PostgreSQLClient.master name n sm = .ok none := by
  constructor
  · rcases n with _ | _ | n <;> cases sm <;> simp [PostgreSQLClient.master]
  · rcases n with _ | _ | n <;> cases sm <;> simp [PostgreSQLClient.master]

theorem dictFind_append (l1 l2 : List (String × String)) (k : String) :
    dictFind (l1 ++ l2) k =
      match dictFind l1 k with
      | some v => some v
      | none => dictFind l2 k := by
  simp only [dictFind, List.find?_append]
  cases hf : l1.find? (fun q => q.1 == k) with
  | none => simp [Option.or]
  | some q => simp [Option.or]

theorem dictFind_foldl_insertIfAbsent (pairs acc : List (String × String)) (k : String) :
    dictFind (pairs.foldl insertIfAbsent acc) k =
      match dictFind acc k with
      | some v => some v
      | none => dictFind pairs k := by
  induction pairs generalizing acc with
  | nil =>
    simp only [List.foldl_nil]
    cases h : dictFind acc k <;> rfl
  | cons p rest ih =>
    simp only [List.foldl_cons]
    by_cases hp : (dictFind acc p.1).isSome
    · have hins : insertIfAbsent acc p = acc := by simp [insertIfAbsent, hp]
      rw [hins, ih]
      cases hk : dictFind acc k with
      | some v => rfl
      | none =>
        have hpk : (p.1 == k) = false := by
          by_contra hne
          have h1 : (p.1 == k) = true := by
            cases h2 : p.1 == k
            · exact absurd h2 hne
            · rfl
          have h3 : p.1 = k := by simpa using h1
          rw [h3, hk] at hp
          simp at hp
        show dictFind rest k = dictFind (p :: rest) k
        simp [dictFind, List.find?_cons, hpk]
    · have haccp : dictFind acc p.1 = none := Option.not_isSome_iff_eq_none.mp hp
      have hins : insertIfAbsent acc p = acc ++ [p] := by simp [insertIfAbsent, hp]
      rw [hins, ih, dictFind_append]
      cases hk : dictFind acc k with
      | some v => rfl
      | none =>
        show (match dictFind [p] k with
              | some v => some v
              | none => dictFind rest k) = dictFind (p :: rest) k
        cases hpk : p.1 == k with
        | true => simp [dictFind, List.find?_cons, hpk]
        | false => simp [dictFind, List.find?_cons, hpk]

/-- Claim C10: `PostgreSQLDatabase` parses a `key=value key2=value`
connection string into a mapping in which, for every key appearing more
than once, only the first occurrence's value is kept, and the `host`,
`database`, `port`, `user` and `password` properties read from that
mapping, raising a `KeyError` naming the corresponding key when it is
absent from the string. -/
theorem c10_connstring_first_occurrence (s k : String) :
    dictFind (PostgreSQLDatabase.ofConnString s).properties k =
      dictFind (keyValueFindall s.data) k ∧
    (PostgreSQLDatabase.ofConnString s).host =
      (match dictFind (keyValueFindall s.data) "host" with
       | some v => .ok v
       | none => .error ("KeyError: " ++ "host")) ∧
    (PostgreSQLDatabase.ofConnString s).database =
      (match dictFind (keyValueFindall s.data) "dbname" with
       | some v => .ok v
       | none => .error ("KeyError: " ++ "dbname")) ∧
    (PostgreSQLDatabase.ofConnString s).port =
      (match dictFind (keyValueFindall s.data) "port" with
       | some v => .ok v
       | none => .error ("KeyError: " ++ "port")) ∧
    (PostgreSQLDatabase.ofConnString s).user =
      (match dictFind (keyValueFindall s.data) "user" with
       | some v => .ok v
       | none => .error ("KeyError: " ++ "user")) ∧
    (PostgreSQLDatabase.ofConnString s).password =
      (match dictFind (keyValueFindall s.data) "password" with
       | some v => .ok v
       | none => .error ("KeyError: " ++ "password")) := by
  have hmain : ∀ k0 : String,
      dictFind (PostgreSQLDatabase.ofConnString s).properties k0 =
        dictFind (keyValueFindall s.data) k0 := by
    intro k0
    show dictFind ((keyValueFindall s.data).foldl insertIfAbsent []) k0 = _
    rw [dictFind_foldl_insertIfAbsent]
    rfl
  refine ⟨hmain k, ?_, ?_, ?_, ?_, ?_⟩ <;>
    simp only [PostgreSQLDatabase.host, PostgreSQLDatabase.database, PostgreSQLDatabase.port,
      PostgreSQLDatabase.user, PostgreSQLDatabase.password, dictGetItem, hmain]

/-! ## Rejection of unsupported shapes -/

mutual

theorem encodeChecked_isOk_iff (key : String) : ∀ v : PyValue,
    (encodeChecked key v).isOk = (findUnsupported v).isNone
  | .scalar s => rfl
  | .bytes bs => rfl
  | .obj t => rfl
  | .seq items => by
    have ih := encodeCheckedList_isOk_iff key items
    simp only [encodeChecked, findUnsupported]
    cases h : encodeCheckedList key items <;> rw [h] at ih <;> simp_all [Except.isOk, Except.toBool]
  | .setv items => by
    have ih := encodeCheckedSet_isOk_iff key items
    simp only [encodeChecked, findUnsupported]
    cases h : encodeCheckedSet key items <;> rw [h] at ih <;> simp_all [Except.isOk, Except.toBool]
  | .dict entries => by
    have ih := encodeCheckedDict_isOk_iff key entries
    simp only [encodeChecked, findUnsupported]
    cases h : encodeCheckedDict key entries <;> rw [h] at ih <;> simp_all [Except.isOk, Except.toBool]

theorem encodeCheckedList_isOk_iff (key : String) : ∀ l : List PyValue,
    (encodeCheckedList key l).isOk = (findUnsupportedList l).isNone
  | [] => rfl
  | v :: rest => by
    have ihv := encodeChecked_isOk_iff key v
    have ihr := encodeCheckedList_isOk_iff key rest
    simp only [encodeCheckedList, findUnsupportedList]
    cases hv : encodeChecked key v <;> rw [hv] at ihv <;>
      cases hr : encodeCheckedList key rest <;> rw [hr] at ihr <;>
      cases hf : findUnsupported v <;> rw [hf] at ihv <;> simp_all [Except.isOk, Except.toBool]

theorem encodeCheckedSet_isOk_iff (key : String) : ∀ l : List PyValue,
    (encodeCheckedSet key l).isOk = (findUnsupportedList l).isNone
  | [] => rfl
  | v :: rest => by
    have ihv := encodeChecked_isOk_iff key v
    have ihr := encodeCheckedSet_isOk_iff key rest
    simp only [encodeCheckedSet, findUnsupportedList]
    cases hv : encodeChecked key v <;> rw [hv] at ihv <;>
      cases hr : encodeCheckedSet key rest <;> rw [hr] at ihr <;>
      cases hf : findUnsupported v <;> rw [hf] at ihv <;> simp_all [Except.isOk, Except.toBool]

theorem encodeCheckedDict_isOk_iff (key : String) : ∀ l : List (PScalar × PyValue),
    (encodeCheckedDict key l).isOk = (findUnsupportedDict l).isNone
  | [] => rfl
  | (k, v) :: rest => by
    have ihv := encodeChecked_isOk_iff key v
    have ihr := encodeCheckedDict_isOk_iff key rest
    simp only [encodeCheckedDict, findUnsupportedDict]
    cases hv : encodeChecked key v <;> rw [hv] at ihv <;>
      cases hr : encodeCheckedDict key rest <;> rw [hr] at ihr <;>
      cases hf : findUnsupported v <;> rw [hf] at ihv <;> simp_all [Except.isOk, Except.toBool]
end

mutual

theorem encodeChecked_error_names (key : String) : ∀ v : PyValue, ∀ e : SerializationError,
    encodeChecked key v = .error e → e.key = key ∧ findUnsupported v = some e.typeName
  | .scalar s => by intro e h; exact absurd h (by simp [encodeChecked])
  | .bytes bs => by intro e h; exact absurd h (by simp [encodeChecked])
  | .obj t => by
    intro e h
    simp only [encodeChecked, Except.error.injEq] at h
    subst h
    exact ⟨rfl, rfl⟩
  | .seq items => by
    intro e h
    simp only [encodeChecked] at h
    cases hl : encodeCheckedList key items with
    | ok ds => rw [hl] at h; simp at h
    | error e0 =>
      rw [hl] at h
      simp only [Except.error.injEq] at h
      have h2 : encodeCheckedList key items = Except.error e := by
        rw [hl]; exact congrArg Except.error h
      have hr := encodeCheckedList_error_names key items e h2
      exact ⟨hr.1, by simp [findUnsupported, hr.2]⟩
  | .setv items => by
    intro e h
    simp only [encodeChecked] at h
    cases hl : encodeCheckedSet key items with
    | ok es => rw [hl] at h; simp at h
    | error e0 =>
      rw [hl] at h
      simp only [Except.error.injEq] at h
      have h2 : encodeCheckedSet key items = Except.error e := by
        rw [hl]; exact congrArg Except.error h
      have hr := encodeCheckedSet_error_names key items e h2
      exact ⟨hr.1, by simp [findUnsupported, hr.2]⟩
  | .dict entries => by
    intro e h
    simp only [encodeChecked] at h
    cases hl : encodeCheckedDict key entries with
    | ok es => rw [hl] at h; simp at h
    | error e0 =>
      rw [hl] at h
      simp only [Except.error.injEq] at h
      have h2 : encodeCheckedDict key entries = Except.error e := by
        rw [hl]; exact congrArg Except.error h
      have hr := encodeCheckedDict_error_names key entries e h2
      exact ⟨hr.1, by simp [findUnsupported, hr.2]⟩

theorem encodeCheckedList_error_names (key : String) :
    ∀ l : List PyValue, ∀ e : SerializationError,
    encodeCheckedList key l = .error e → e.key = key ∧ findUnsupportedList l = some e.typeName
  | [] => by intro e h; exact absurd h (by simp [encodeCheckedList])
  | v :: rest => by
    intro e h
    simp only [encodeCheckedList] at h
    cases hv : encodeChecked key v with
    | error e0 =>
      rw [hv] at h
      simp only [Except.error.injEq] at h
      have h2 : encodeChecked key v = Except.error e := by
        rw [hv]; exact congrArg Except.error h
      have hr := encodeChecked_error_names key v e h2
      exact ⟨hr.1, by simp [findUnsupportedList, hr.2]⟩
    | ok d =>
      rw [hv] at h
      have hnone : findUnsupported v = none := by
        have hiff := encodeChecked_isOk_iff key v
        rw [hv] at hiff
        simpa [Except.isOk, Except.toBool] using hiff.symm
      cases hr0 : encodeCheckedList key rest with
      | ok ds => rw [hr0] at h; simp at h
      | error e1 =>
        rw [hr0] at h
        simp only [Except.error.injEq] at h
        have h2 : encodeCheckedList key rest = Except.error e := by
          rw [hr0]; exact congrArg Except.error h
        have hr := encodeCheckedList_error_names key rest e h2
        exact ⟨hr.1, by simp [findUnsupportedList, hnone, hr.2]⟩

theorem encodeCheckedSet_error_names (key : String) :
    ∀ l : List PyValue, ∀ e : SerializationError,
    encodeCheckedSet key l = .error e → e.key = key ∧ findUnsupportedList l = some e.typeName
  | [] => by intro e h; exact absurd h (by simp [encodeCheckedSet])
  | v :: rest => by
    intro e h
    simp only [encodeCheckedSet] at h
    cases hv : encodeChecked key v with
    | error e0 =>
      rw [hv] at h
      simp only [Except.error.injEq] at h
      have h2 : encodeChecked key v = Except.error e := by
        rw [hv]; exact congrArg Except.error h
      have hr := encodeChecked_error_names key v e h2
      exact ⟨hr.1, by simp [findUnsupportedList, hr.2]⟩
    | ok d =>
      rw [hv] at h
      have hnone : findUnsupported v = none := by
        have hiff := encodeChecked_isOk_iff key v
        rw [hv] at hiff
        simpa [Except.isOk, Except.toBool] using hiff.symm
      cases hr0 : encodeCheckedSet key rest with
      | ok es => rw [hr0] at h; simp at h
      | error e1 =>
        rw [hr0] at h
        simp only [Except.error.injEq] at h
        have h2 : encodeCheckedSet key rest = Except.error e := by
          rw [hr0]; exact congrArg Except.error h
        have hr := encodeCheckedSet_error_names key rest e h2
        exact ⟨hr.1, by simp [findUnsupportedList, hnone, hr.2]⟩

theorem encodeCheckedDict_error_names (key : String) :
    ∀ l : List (PScalar × PyValue), ∀ e : SerializationError,
    encodeCheckedDict key l = .error e → e.key = key ∧ findUnsupportedDict l = some e.typeName
  | [] => by intro e h; exact absurd h (by simp [encodeCheckedDict])
  | (k, v) :: rest => by
    intro e h
    simp only [encodeCheckedDict] at h
    cases hv : encodeChecked key v with
    | error e0 =>
      rw [hv] at h
      simp only [Except.error.injEq] at h
      have h2 : encodeChecked key v = Except.error e := by
        rw [hv]; exact congrArg Except.error h
      have hr := encodeChecked_error_names key v e h2
      exact ⟨hr.1, by simp [findUnsupportedDict, hr.2]⟩
    | ok d =>
      rw [hv] at h
      have hnone : findUnsupported v = none := by
        have hiff := encodeChecked_isOk_iff key v
        rw [hv] at hiff
        simpa [Except.isOk, Except.toBool] using hiff.symm
      cases hr0 : encodeCheckedDict key rest with
      | ok es => rw [hr0] at h; simp at h
      | error e1 =>
        rw [hr0] at h
        simp only [Except.error.injEq] at h
        have h2 : encodeCheckedDict key rest = Except.error e := by
          rw [hr0]; exact congrArg Except.error h
        have hr := encodeCheckedDict_error_names key rest e h2
        exact ⟨hr.1, by simp [findUnsupportedDict, hnone, hr.2]⟩
end

/-- Claim C4: for every value whose shape lies outside the supported
set, encoding fails — the checked encoder succeeds exactly on values
without an unsupported part — and the resulting `SerializationError`
names the offending key and the observed type of the offending value,
rather than silently coercing it to a supported shape. -/
theorem c4_reject_unsupported (key : String) (v : PyValue) :
    ((encodeChecked key v).isOk = (findUnsupported v).isNone) ∧
    (∀ e, encodeChecked key v = .error e →
      e.key = key ∧ findUnsupported v = some e.typeName) :=
  ⟨encodeChecked_isOk_iff key v, fun e h => encodeChecked_error_names key v e h⟩

/-- Witness for C4 at a concrete unsupported value: a Python function
object stored under key `x` is rejected naming that key and type. -/
theorem c4_reject_unsupported_witness :
    (SerializationError.mk "x" "function").key = "x" ∧
    findUnsupported (PyValue.obj "function") = some (SerializationError.mk "x" "function").typeName :=
  (c4_reject_unsupported "x" (PyValue.obj "function")).2 (SerializationError.mk "x" "function") rfl

/-! ## Host-hook-tool protocol -/

/-- Claim C5: with the host-hook-tool backend active, every read
invokes the "get" command with the single key as argument and returns
the decoded document (or nothing when absent); every write invokes the
"set" command with a file-input flag and pipes the full document on
standard input, formatted as the key, a colon, and a block-indented
encoded document (every body line carries the two-space indent); every
delete invokes the "delete" command with the single key as argument. -/
theorem c5_hook_tool_protocol (key : String) (value : Value) (toolReply : Option Doc) :
    stateGet key toolReply =
      ({ argv := ["state-get", key], stdinDoc := none }, toolReply.bind decode) ∧
    (stateSet key value).argv = ["state-set", "--file", "-"] ∧
    (stateSet key value).stdinDoc =
      some (String.intercalate "\n"
        (("\"" ++ key ++ "\": |") ::
          ((renderDoc (encode value)).splitOn "\n").map (fun l => "  " ++ l)) ++ "\n") ∧
    (stateSetLines key value).head? = some ("\"" ++ key ++ "\": |") ∧
    (∀ line ∈ (stateSetLines key value).tail, ∃ orig, line = "  " ++ orig) ∧
    stateDelete key = { argv := ["state-delete", key], stdinDoc := none } := by
  refine ⟨rfl, rfl, rfl, rfl, ?_, rfl⟩
  intro line hline
  simp only [stateSetLines, List.tail_cons, List.mem_map] at hline
  obtain ⟨orig, _, h⟩ := hline
  exact ⟨orig, h.symm⟩

/-! ## StoredState set_default -/

/-- Claim C6: for every StoredState slot `(owner-path, field)`,
`set_default` writes the given initial value if and only if no snapshot
yet exists for that slot; in particular a second `set_default` with a
differing value after the slot is populated leaves the store entirely
unchanged. -/
theorem c6_set_default_only_absent (st : SlotStore) (owner field : String) (v u : Value) :
    (slotFind st owner field = none →
      slotFind (set_default st owner [(field, v)]) owner field = some v) ∧
    ((slotFind st owner field).isSome = true → set_default st owner [(field, v)] = st) ∧
    set_default (set_default st owner [(field, v)]) owner [(field, u)] =
      set_default st owner [(field, v)] := by
  have hstep : ∀ (acc : SlotStore) (w : Value),
      set_default acc owner [(field, w)] =
        if (slotFind acc owner field).isSome then acc else acc ++ [((owner, field), w)] := by
    intro acc w
    rfl
  have habsent : ∀ (w : Value), slotFind st owner field = none →
      slotFind (set_default st owner [(field, w)]) owner field = some w := by
    intro w habs
    rw [hstep, habs]
    simp only [Option.isSome_none, Bool.false_eq_true, if_false]
    have hfind : List.find? (fun e => e.1.1 == owner && e.1.2 == field) st = none := by
      simp only [slotFind, Option.map_eq_none'] at habs
      exact habs
    simp [slotFind, List.find?_append, hfind, Option.or, List.find?_cons]
  refine ⟨habsent v, ?_, ?_⟩
  · intro hsome
    rw [hstep, if_pos hsome]
  · by_cases hs : (slotFind st owner field).isSome
    · simp [hstep, hs]
    · have habs : slotFind st owner field = none := Option.not_isSome_iff_eq_none.mp hs
      have h1 := habsent v habs
      rw [hstep _ u, h1]
      simp

/-! ## Handle collisions -/

/-- Claim C7: constructing a second Object with the same parent, kind
and key as an already-constructed Object in the same run raises
`CollisionError`; a handle path already present in the registry is
never silently aliased. -/
theorem c7_collision (f : ObjectRegistry) (parent : Option String) (kind : String)
    (key : Option String) :
    (∀ f', registerObject f parent kind key = .ok f' →
      registerObject f' parent kind key =
        .error (.collision (handlePath parent kind key))) ∧
    (f.objects.contains (handlePath parent kind key) = true →
      registerObject f parent kind key =
        .error (.collision (handlePath parent kind key))) := by
  constructor
  · intro f' h
    by_cases hmem : handlePath parent kind key ∈ f.objects
    · have he : registerObject f parent kind key =
          .error (.collision (handlePath parent kind key)) := by
        simp [registerObject, hmem]
      rw [he] at h
      exact absurd h (by simp)
    · have hc : f.objects.contains (handlePath parent kind key) = false := by simpa using hmem
      simp only [registerObject, hc, Bool.false_eq_true, if_false, Except.ok.injEq] at h
      subst h
      simp [registerObject]
  · intro hc
    have hmem : handlePath parent kind key ∈ f.objects := by simpa using hc
    simp [registerObject, hmem]

/-! ## The notice queue: emit -/

theorem removeNotice_append_fresh (storage : List Notice) (seq : Nat) (ek obs : String)
    (snap : Value) (hfresh : ∀ n ∈ storage, n.seq < seq) :
    removeNotice
        (storage ++ [{ seq := seq, eventKind := ek, snapshot := snap, observerPath := obs }])
        seq obs = storage := by
  simp only [removeNotice, List.filter_append]
  have h1 : storage.filter (fun n => !(n.seq == seq && n.observerPath == obs)) = storage := by
    apply List.filter_eq_self.mpr
    intro n hn
    have := hfresh n hn
    simp only [Bool.not_eq_eq_eq_not, Bool.not_false]
    have hne : (n.seq == seq) = false := by
      simp only [beq_eq_false_iff_ne, ne_eq]
      omega
    simp [hne]
  rw [h1]
  simp

theorem emitAux_eq (ek : String) (snap : Value) :
    ∀ (observers : List (String × Outcome)) (storage : List Notice) (seq : Nat),
    (∀ n ∈ storage, n.seq < seq) →
    emitAux ek snap storage seq observers =
      (expectedTrace ek snap seq observers,
       storage ++ expectedNew ek snap seq observers,
       seq + attemptedCount observers,
       firstFailure observers)
  | [], storage, seq, _ => by
    simp [emitAux, expectedTrace, expectedNew, attemptedCount, firstFailure]
  | (obs, .handled) :: rest, storage, seq, hfresh => by
    have hrm := removeNotice_append_fresh storage seq ek obs snap hfresh
    have ih := emitAux_eq ek snap rest storage (seq + 1)
      (fun n hn => Nat.lt_succ_of_lt (hfresh n hn))
    simp only [emitAux, hrm, ih, expectedTrace, expectedNew, attemptedCount, firstFailure]
    have harith : seq + 1 + attemptedCount rest = seq + (attemptedCount rest + 1) := by omega
    rw [harith]
  | (obs, .deferred) :: rest, storage, seq, hfresh => by
    have ih := emitAux_eq ek snap rest
      (storage ++ [{ seq := seq, eventKind := ek, snapshot := snap, observerPath := obs }])
      (seq + 1)
      (by
        intro n hn
        rcases List.mem_append.mp hn with h | h
        · exact Nat.lt_succ_of_lt (hfresh n h)
        · simp only [List.mem_singleton] at h
          subst h
          exact Nat.lt_succ_self seq)
    simp only [emitAux, ih, expectedTrace, expectedNew, attemptedCount, firstFailure]
    have harith : seq + 1 + attemptedCount rest = seq + (attemptedCount rest + 1) := by omega
    rw [harith, List.append_assoc, List.singleton_append]
  | (obs, .failed) :: rest, storage, seq, hfresh => by
    simp [emitAux, expectedTrace, expectedNew, attemptedCount, firstFailure]

theorem expectedTrace_write_ahead (ek : String) (snap : Value) :
    ∀ (observers : List (String × Outcome)) (seq : Nat) (s : Nat) (o : String) (sn : Value),
    Op.invoke s o sn ∈ expectedTrace ek snap seq observers →
    ∃ pre suf, expectedTrace ek snap seq observers = pre ++ Op.invoke s o sn :: suf ∧
      Op.saveNotice s o ∈ pre
  | [], seq, s, o, sn => by intro h; simp [expectedTrace] at h
  | (obs, .handled) :: rest, seq, s, o, sn => by
    intro h
    simp only [expectedTrace, List.mem_cons] at h
    rcases h with h | h | h | h
    · exact absurd h (by simp)
    · obtain ⟨rfl, rfl, rfl⟩ := Op.invoke.inj h
      exact ⟨[Op.saveNotice s o],
        Op.dropNotice s o :: expectedTrace ek sn (s + 1) rest,
        by simp [expectedTrace], by simp⟩
    · exact absurd h (by simp)
    · obtain ⟨pre, suf, heq, hpre⟩ := expectedTrace_write_ahead ek snap rest (seq + 1) s o sn h
      refine ⟨Op.saveNotice seq obs :: Op.invoke seq obs snap :: Op.dropNotice seq obs :: pre,
        suf, ?_, by simp [hpre]⟩
      simp [expectedTrace, heq]
  | (obs, .deferred) :: rest, seq, s, o, sn => by
    intro h
    simp only [expectedTrace, List.mem_cons] at h
    rcases h with h | h | h
    · exact absurd h (by simp)
    · obtain ⟨rfl, rfl, rfl⟩ := Op.invoke.inj h
      exact ⟨[Op.saveNotice s o], expectedTrace ek sn (s + 1) rest,
        by simp [expectedTrace], by simp⟩
    · obtain ⟨pre, suf, heq, hpre⟩ := expectedTrace_write_ahead ek snap rest (seq + 1) s o sn h
      refine ⟨Op.saveNotice seq obs :: Op.invoke seq obs snap :: pre, suf, ?_, by simp [hpre]⟩
      simp [expectedTrace, heq]
  | (obs, .failed) :: rest, seq, s, o, sn => by
    intro h
    simp only [expectedTrace, List.mem_cons] at h
    rcases h with h | h | h
    · exact absurd h (by simp)
    · obtain ⟨rfl, rfl, rfl⟩ := Op.invoke.inj h
      exact ⟨[Op.saveNotice s o], [], by simp [expectedTrace], by simp⟩
    · simp at h

theorem expectedTrace_seq_bounds (ek : String) (snap : Value) :
    ∀ (observers : List (String × Outcome)) (seq : Nat),
    ∀ op ∈ expectedTrace ek snap seq observers,
    seq ≤ opSeqOf op ∧ opSeqOf op < seq + attemptedCount observers
  | [], seq => by intro op h; simp [expectedTrace] at h
  | (obs, .handled) :: rest, seq => by
    intro op h
    simp only [expectedTrace, List.mem_cons] at h
    rcases h with h | h | h | h
    · subst h; simp only [opSeqOf, attemptedCount]; omega
    · subst h; simp only [opSeqOf, attemptedCount]; omega
    · subst h; simp only [opSeqOf, attemptedCount]; omega
    · have := expectedTrace_seq_bounds ek snap rest (seq + 1) op h
      simp only [attemptedCount]
      omega
  | (obs, .deferred) :: rest, seq => by
    intro op h
    simp only [expectedTrace, List.mem_cons] at h
    rcases h with h | h | h
    · subst h; simp only [opSeqOf, attemptedCount]; omega
    · subst h; simp only [opSeqOf, attemptedCount]; omega
    · have := expectedTrace_seq_bounds ek snap rest (seq + 1) op h
      simp only [attemptedCount]
      omega
  | (obs, .failed) :: rest, seq => by
    intro op h
    simp only [expectedTrace, List.mem_cons] at h
    rcases h with h | h | h
    · subst h; simp only [opSeqOf, attemptedCount]; omega
    · subst h; simp only [opSeqOf, attemptedCount]; omega
    · simp at h

theorem attemptedCount_le_length :
    ∀ observers : List (String × Outcome), attemptedCount observers ≤ observers.length
  | [] => le_rfl
  | (obs, .handled) :: rest => by
    simpa [attemptedCount] using attemptedCount_le_length rest
  | (obs, .deferred) :: rest => by
    simpa [attemptedCount] using attemptedCount_le_length rest
  | (obs, .failed) :: rest => by simp [attemptedCount]

/-- Claim C2: for every `emit` with bound observers, each observer's
Notice is durably written before that observer is invoked (write-ahead,
visible in the trace), and each invocation has exactly three outcomes:
handled deletes the Notice, deferred leaves it untouched and continues,
and an unrelated error propagates immediately — no further observers
run and their Notices are never created, every operation in the trace
concerning only the attempted observers.  A Notice therefore exists in
storage from the moment its dispatch is attempted until that observer
completes without deferring. -/
theorem c2_emit_write_ahead_outcomes (ek : String) (snap : Value) (storage : List Notice)
    (seq : Nat) (observers : List (String × Outcome))
    (hfresh : ∀ n ∈ storage, n.seq < seq) :
    emitAux ek snap storage seq observers =
      (expectedTrace ek snap seq observers,
       storage ++ expectedNew ek snap seq observers,
       seq + attemptedCount observers,
       firstFailure observers) ∧
    (∀ s o sn, Op.invoke s o sn ∈ expectedTrace ek snap seq observers →
      ∃ pre suf, expectedTrace ek snap seq observers = pre ++ Op.invoke s o sn :: suf ∧
        Op.saveNotice s o ∈ pre) ∧
    (∀ op ∈ expectedTrace ek snap seq observers,
      seq ≤ opSeqOf op ∧ opSeqOf op < seq + attemptedCount observers) ∧
    attemptedCount observers ≤ observers.length :=
  ⟨emitAux_eq ek snap observers storage seq hfresh,
   fun s o sn h => expectedTrace_write_ahead ek snap observers seq s o sn h,
   fun op h => expectedTrace_seq_bounds ek snap observers seq op h,
   attemptedCount_le_length observers⟩

/-- Witness for C2 at a concrete emission: empty storage, sequence 0,
four observers of which the third fails. -/
theorem c2_emit_write_ahead_outcomes_witness :
    emitAux "kind" (Value.scalar .pnull) [] 0
        [("a", Outcome.handled), ("b", Outcome.deferred), ("c", Outcome.failed),
         ("d", Outcome.handled)] =
      (expectedTrace "kind" (Value.scalar .pnull) 0
         [("a", Outcome.handled), ("b", Outcome.deferred), ("c", Outcome.failed),
          ("d", Outcome.handled)],
       [] ++ expectedNew "kind" (Value.scalar .pnull) 0
         [("a", Outcome.handled), ("b", Outcome.deferred), ("c", Outcome.failed),
          ("d", Outcome.handled)],
       0 + attemptedCount
         [("a", Outcome.handled), ("b", Outcome.deferred), ("c", Outcome.failed),
          ("d", Outcome.handled)],
       firstFailure
         [("a", Outcome.handled), ("b", Outcome.deferred), ("c", Outcome.failed),
          ("d", Outcome.handled)]) :=
  (c2_emit_write_ahead_outcomes "kind" (Value.scalar .pnull) [] 0
    [("a", Outcome.handled), ("b", Outcome.deferred), ("c", Outcome.failed),
     ("d", Outcome.handled)] (by simp)).1

/-! ## The notice queue: reemit and the run protocol -/

theorem reemitAux_kept_subset (beh : Nat → String → Outcome) :
    ∀ pending : List Notice, ∀ n ∈ (reemitAux beh pending).2.1, n ∈ pending
  | [] => by intro n h; simp [reemitAux] at h
  | m :: rest => by
    intro n h
    simp only [reemitAux] at h
    cases hb : beh m.seq m.observerPath with
    | handled =>
      rw [hb] at h
      simp only [] at h
      exact List.mem_cons_of_mem m (reemitAux_kept_subset beh rest n h)
    | deferred =>
      rw [hb] at h
      simp only [List.mem_cons] at h
      rcases h with h | h
      · exact h ▸ List.mem_cons_self m rest
      · exact List.mem_cons_of_mem m (reemitAux_kept_subset beh rest n h)
    | failed =>
      rw [hb] at h
      exact h

theorem reemitAux_trace_seqs (beh : Nat → String → Outcome) :
    ∀ pending : List Notice, ∀ op ∈ (reemitAux beh pending).1,
    ∃ n ∈ pending, opSeqOf op = n.seq
  | [] => by intro op h; simp [reemitAux] at h
  | m :: rest => by
    intro op h
    simp only [reemitAux] at h
    cases hb : beh m.seq m.observerPath with
    | handled =>
      rw [hb] at h
      simp only [List.mem_cons] at h
      rcases h with h | h | h
      · exact ⟨m, List.mem_cons_self m rest, by rw [h]; rfl⟩
      · exact ⟨m, List.mem_cons_self m rest, by rw [h]; rfl⟩
      · obtain ⟨n, hn, he⟩ := reemitAux_trace_seqs beh rest op h
        exact ⟨n, List.mem_cons_of_mem m hn, he⟩
    | deferred =>
      rw [hb] at h
      simp only [List.mem_cons] at h
      rcases h with h | h
      · exact ⟨m, List.mem_cons_self m rest, by rw [h]; rfl⟩
      · obtain ⟨n, hn, he⟩ := reemitAux_trace_seqs beh rest op h
        exact ⟨n, List.mem_cons_of_mem m hn, he⟩
    | failed =>
      rw [hb] at h
      simp only [List.mem_singleton] at h
      exact ⟨m, List.mem_cons_self m rest, by rw [h]; rfl⟩

theorem reemitAux_noFail (beh : Nat → String → Outcome) :
    ∀ pending : List Notice,
    (∀ n ∈ pending, ¬ beh n.seq n.observerPath = .failed) →
    (reemitAux beh pending).1.filter Op.isInvoke =
        pending.map (fun n => Op.invoke n.seq n.observerPath n.snapshot) ∧
    (reemitAux beh pending).2.1 =
        pending.filter (fun n => beh n.seq n.observerPath == .deferred) ∧
    (reemitAux beh pending).2.2 = none
  | [] => by intro _; simp [reemitAux]
  | m :: rest => by
    intro hnf
    have ih := reemitAux_noFail beh rest (fun n hn => hnf n (List.mem_cons_of_mem m hn))
    simp only [reemitAux]
    cases hb : beh m.seq m.observerPath with
    | handled =>
      simp only [List.filter_cons, Op.isInvoke, List.map_cons]
      refine ⟨?_, ?_, ih.2.2⟩
      · simpa using ih.1
      · rw [ih.2.1]
        have : (beh m.seq m.observerPath == Outcome.deferred) = false := by
          rw [hb]; rfl
        simp [List.filter_cons, this]
    | deferred =>
      simp only [List.filter_cons, Op.isInvoke, List.map_cons]
      refine ⟨?_, ?_, ih.2.2⟩
      · simpa using ih.1
      · rw [ih.2.1]
        have : (beh m.seq m.observerPath == Outcome.deferred) = true := by
          rw [hb]; rfl
        simp [List.filter_cons, this]
    | failed =>
      exact absurd hb (hnf m (List.mem_cons_self m rest))

theorem loadNotices_perm (storage : List Notice) : (loadNotices storage).Perm storage :=
  List.mergeSort_perm storage _

theorem loadNotices_sorted (storage : List Notice) :
    List.Pairwise (fun a b : Notice => a.seq ≤ b.seq) (loadNotices storage) := by
  have h := @List.sorted_mergeSort Notice (fun a b : Notice => decide (a.seq ≤ b.seq))
    (by intro a b c hab hbc; simp only [decide_eq_true_eq] at *; omega)
    (by intro a b; simp only [Bool.or_eq_true, decide_eq_true_eq]; omega)
    storage
  exact h.imp (by intro a b hab; simpa using hab)

/-- Claim C3: for every run, reemission loads all Notices pending at
the start in ascending sequence order (a permutation of storage, sorted
by sequence) and resolves each exactly once — delivering to exactly the
one recorded observer, with event content identical to the original
snapshot — before any event newly emitted in that run is dispatched to
any observer: every reemission operation concerns a pre-existing
sequence number, every new-emission operation a fresh one, the new
event is never emitted at all when reemission fails, and a re-deferred
Notice remains pending in the final storage. -/
theorem c3_reemit_before_new_events (storage : List Notice) (beh : Nat → String → Outcome)
    (ek : String) (snap : Value) (newObservers : List (String × Outcome)) (nextSeq : Nat)
    (hfresh : ∀ n ∈ storage, n.seq < nextSeq) :
    (loadNotices storage).Perm storage ∧
    List.Pairwise (fun a b : Notice => a.seq ≤ b.seq) (loadNotices storage) ∧
    (∀ op ∈ (runModel storage beh ek snap newObservers nextSeq).1.1,
      opSeqOf op < nextSeq) ∧
    (∀ op ∈ (runModel storage beh ek snap newObservers nextSeq).1.2,
      nextSeq ≤ opSeqOf op) ∧
    ((reemitAux beh (loadNotices storage)).2.2.isSome = true →
      (runModel storage beh ek snap newObservers nextSeq).1.2 = []) ∧
    ((∀ n ∈ loadNotices storage, ¬ beh n.seq n.observerPath = .failed) →
      (runModel storage beh ek snap newObservers nextSeq).1.1.filter Op.isInvoke =
          (loadNotices storage).map (fun n => Op.invoke n.seq n.observerPath n.snapshot) ∧
      (runModel storage beh ek snap newObservers nextSeq).1.2 =
          expectedTrace ek snap nextSeq newObservers) ∧
    ((∀ n ∈ loadNotices storage, ¬ beh n.seq n.observerPath = .failed) →
      ∀ n ∈ loadNotices storage, beh n.seq n.observerPath = .deferred →
        n ∈ (runModel storage beh ek snap newObservers nextSeq).2.1) := by
  have hperm := loadNotices_perm storage
  have hpfresh : ∀ n ∈ loadNotices storage, n.seq < nextSeq := fun n hn =>
    hfresh n (hperm.mem_iff.mp hn)
  have hkfresh : ∀ n ∈ (reemitAux beh (loadNotices storage)).2.1, n.seq < nextSeq :=
    fun n hn => hpfresh n (reemitAux_kept_subset beh (loadNotices storage) n hn)
  have hrtr : ∀ op ∈ (reemitAux beh (loadNotices storage)).1, opSeqOf op < nextSeq := by
    intro op hop
    obtain ⟨n, hn, he⟩ := reemitAux_trace_seqs beh (loadNotices storage) op hop
    rw [he]
    exact hpfresh n hn
  have hemit := emitAux_eq ek snap newObservers (reemitAux beh (loadNotices storage)).2.1
    nextSeq hkfresh
  cases herr : (reemitAux beh (loadNotices storage)).2.2 with
  | some e =>
    have hrun : runModel storage beh ek snap newObservers nextSeq =
        (((reemitAux beh (loadNotices storage)).1, []),
         (reemitAux beh (loadNotices storage)).2.1, some e) := by
      simp only [runModel]
      rw [herr]
    refine ⟨hperm, loadNotices_sorted storage, ?_, ?_, ?_, ?_, ?_⟩
    · rw [hrun]; exact hrtr
    · rw [hrun]; intro op hop; simp at hop
    · intro _; rw [hrun]
    · intro hnf
      have hcontra := (reemitAux_noFail beh (loadNotices storage) hnf).2.2
      rw [herr] at hcontra
      exact absurd hcontra (by simp)
    · intro hnf
      have hcontra := (reemitAux_noFail beh (loadNotices storage) hnf).2.2
      rw [herr] at hcontra
      exact absurd hcontra (by simp)
  | none =>
    have hrun : runModel storage beh ek snap newObservers nextSeq =
        (((reemitAux beh (loadNotices storage)).1,
          (emitAux ek snap (reemitAux beh (loadNotices storage)).2.1 nextSeq
            newObservers).1),
         (emitAux ek snap (reemitAux beh (loadNotices storage)).2.1 nextSeq
           newObservers).2.1,
         (emitAux ek snap (reemitAux beh (loadNotices storage)).2.1 nextSeq
           newObservers).2.2.2) := by
      simp only [runModel]
      rw [herr]
    refine ⟨hperm, loadNotices_sorted storage, ?_, ?_, ?_, ?_, ?_⟩
    · rw [hrun]; exact hrtr
    · rw [hrun]
      intro op hop
      rw [hemit] at hop
      exact (expectedTrace_seq_bounds ek snap newObservers nextSeq op hop).1
    · intro hcontra
      simp at hcontra
    · intro hnf
      have hr := reemitAux_noFail beh (loadNotices storage) hnf
      rw [hrun]
      refine ⟨hr.1, ?_⟩
      rw [hemit]
    · intro hnf n hn hdef
      have hr := reemitAux_noFail beh (loadNotices storage) hnf
      rw [hrun, hemit]
      apply List.mem_append_left
      rw [hr.2.1]
      exact List.mem_filter.mpr ⟨hn, by rw [hdef]; rfl⟩

/-- Witness for C3 at a concrete run: empty storage and next sequence
number 0. -/
theorem c3_reemit_before_new_events_witness : (loadNotices []).Perm [] :=
  (c3_reemit_before_new_events [] (fun _ _ => Outcome.handled) "kind"
    (Value.scalar .pnull) [] 0 (by simp)).1

end Charmbase
